import Mathlib

/-!
Verification of the sarracenia flow-processing core: a shallow embedding of
the worklist partitioning done by the retry-delay stage
(src/sarra/flowcb/msg/fdelay.py), the stage loader
(src/sarra/flowcb/__init__.py, load_library) and the acceleration plugin
(src/sarra/plugin/accel_wget.py), together with theorems about the
spec-level claims on these components.

Times are embedded as integers (the Python code works with float epoch
seconds; every property proved here is order-theoretic in those values).
Filesystem and clock effects are passed in explicitly as an environment
record, and the Python object heap used by load_library is modelled as a
list of option records indexed by natural-number references.
-/

/-- Messages as seen by the fdelay stage: the fields of the Python message
mapping that FDelay.on_messages reads or writes.  `pubTime` holds the value
of `timestr2flt(m['pubTime'])`; `mid` is the identity of the message object
(used to track one message across the in-place mutation of its fields). -/
structure Msg where
  mid : Nat
  method : String
  pubTime : Int
  new_dir : String
  new_file : String
  relPath : String
  isRetry : Bool
  deleteOnPost : List String
deriving DecidableEq, Repr

/-- The four worklist partitions of the flow engine. -/
structure Worklist where
  incoming : List Msg
  ok : List Msg
  rejected : List Msg
  failed : List Msg
deriving DecidableEq, Repr

/-- Environment supplying the effects read by FDelay.on_messages:
`now` is `nowflt()`, `fileExists p` is `os.path.exists(p)` and `mtime p`
is `os.stat(p)[stat.ST_MTIME]`. -/
structure FsEnv where
  now : Int
  fileExists : String → Bool
  mtime : String → Int

/-- Embedding of Python's os.path.join for two components. -/
def pathJoin (a b : String) : String :=
  if b.startsWith "/" then b
  else if a = "" then b
  else if a.endsWith "/" then a ++ b
  else a ++ "/" ++ b

/-- Whether `needle` starts the list `hay`. -/
def startsWithList : List Char → List Char → Bool
  | [], _ => true
  | _ :: _, [] => false
  | a :: as, b :: bs => a == b && startsWithList as bs

/-- Embedding of Python's substring test `needle in hay` on strings. -/
def containsList (needle : List Char) : List Char → Bool
  | [] => startsWithList needle []
  | c :: rest => startsWithList needle (c :: rest) || containsList needle rest

/-- The path whose existence and age fdelay tests: `os.path.join(new_dir,
new_file)` when `'/cfr/' in m['new_dir']`, else `m['relPath']`. -/
def fdelayPath (m : Msg) : String :=
  if containsList "/cfr/".toList m.new_dir.toList then pathJoin m.new_dir m.new_file
  else m.relPath

/-- The in-place mutation fdelay performs on a too-young message:
`m['isRetry'] = False` and `'isRetry'` appended to `m['_deleteOnPost']`
when not already present. -/
def markNoRetry (m : Msg) : Msg :=
  { m with isRetry := false,
           deleteOnPost := if "isRetry" ∈ m.deleteOnPost then m.deleteOnPost
                           else m.deleteOnPost ++ ["isRetry"] }

/-- Which partition one loop iteration of FDelay.on_messages sends the
current message to. -/
inductive Dest where
  | rejected
  | failed
  | outgoing
deriving DecidableEq, Repr

/-- One iteration of the FDelay.on_messages loop body: the destination of
message `m` and the (possibly mutated) message appended there, following
the source line by line: the integrity-method 'remove' test, the
publication-time test, the file-existence test, the file-age test, and
otherwise outgoing. -/
def fdelayClassify (fd : Int) (env : FsEnv) (m : Msg) : Dest × Msg :=
  if m.method = "remove" then (Dest.rejected, m)
  else if env.now - m.pubTime < fd then (Dest.failed, markNoRetry m)
  else if env.fileExists (fdelayPath m) = false then (Dest.failed, m)
  else if env.now - env.mtime (fdelayPath m) < fd then (Dest.failed, markNoRetry m)
  else (Dest.outgoing, m)

/-- The FDelay.on_messages loop over a list of incoming messages, returning
(outgoing, newly rejected, newly failed), each in iteration order. -/
def fdelayRun (fd : Int) (env : FsEnv) : List Msg → List Msg × List Msg × List Msg
  | [] => ([], [], [])
  | m :: rest =>
    let t := fdelayRun fd env rest
    let c := fdelayClassify fd env m
    match c.1 with
    | Dest.rejected => (t.1, c.2 :: t.2.1, t.2.2)
    | Dest.failed => (t.1, t.2.1, c.2 :: t.2.2)
    | Dest.outgoing => (c.2 :: t.1, t.2.1, t.2.2)

/-- FDelay.on_messages: rejected and failed messages are appended to the
worklist's existing rejected/failed partitions, and incoming is replaced by
the outgoing list. -/
def fdelayOnMessages (fd : Int) (env : FsEnv) (w : Worklist) : Worklist :=
  let t := fdelayRun fd env w.incoming
  { incoming := t.1
    ok := w.ok
    rejected := w.rejected ++ t.2.1
    failed := w.failed ++ t.2.2 }

theorem fdelayClassify_mid (fd : Int) (env : FsEnv) (m : Msg) :
    (fdelayClassify fd env m).2.mid = m.mid := by
  unfold fdelayClassify markNoRetry
  split <;> [rfl; split <;> [rfl; split <;> [rfl; split <;> rfl]]]

theorem fdelayRun_perm (fd : Int) (env : FsEnv) (ms : List Msg) :
    ((fdelayRun fd env ms).1.map Msg.mid ++ (fdelayRun fd env ms).2.1.map Msg.mid
      ++ (fdelayRun fd env ms).2.2.map Msg.mid).Perm (ms.map Msg.mid) := by
  induction ms with
  | nil => simp [fdelayRun]
  | cons m rest ih =>
    simp only [List.append_assoc] at ih
    simp only [fdelayRun]
    cases h : (fdelayClassify fd env m).1 <;>
      simp only [List.map_cons, List.map, List.cons_append, List.append_assoc] <;>
      rw [fdelayClassify_mid]
    · exact List.perm_middle.trans (ih.cons m.mid)
    · exact ((List.Perm.append_left _ List.perm_middle).trans List.perm_middle).trans
        (ih.cons m.mid)
    · exact ih.cons m.mid

/-- Claim C1: after FDelay.on_messages runs, every message that was in the
incoming partition beforehand ends in exactly one of incoming (remaining),
newly-appended rejected, or newly-appended failed: the multiset of message
identities of those three groups is exactly the multiset of identities of
the old incoming partition (nothing dropped, nothing duplicated), and the
pre-existing contents of the other partitions are untouched. -/
theorem fdelay_on_messages_partition (fd : Int) (env : FsEnv) (w : Worklist) :
    ((fdelayOnMessages fd env w).incoming.map Msg.mid
      ++ ((fdelayOnMessages fd env w).rejected.drop w.rejected.length).map Msg.mid
      ++ ((fdelayOnMessages fd env w).failed.drop w.failed.length).map Msg.mid).Perm
        (w.incoming.map Msg.mid)
    ∧ (fdelayOnMessages fd env w).ok = w.ok
    ∧ (fdelayOnMessages fd env w).rejected.take w.rejected.length = w.rejected
    ∧ (fdelayOnMessages fd env w).failed.take w.failed.length = w.failed := by
  refine ⟨?_, rfl, ?_, ?_⟩
  · simpa [fdelayOnMessages, List.drop_left] using fdelayRun_perm fd env w.incoming
  · simp [fdelayOnMessages, List.take_left]
  · simp [fdelayOnMessages, List.take_left]

/-- Claim C2 (amended): under the publication-time-younger and
file-modification-time-younger conditions the message is moved to failed
with its retry flag set to False, while under the file-not-existing
condition the message is moved to failed unmutated (its retry flag is left
as it was). -/
theorem fdelay_delay_conditions (fd : Int) (env : FsEnv) (m : Msg)
    (hm : m.method ≠ "remove") :
    (env.now - m.pubTime < fd →
      fdelayClassify fd env m = (Dest.failed, markNoRetry m))
    ∧ (fd ≤ env.now - m.pubTime → env.fileExists (fdelayPath m) = false →
      fdelayClassify fd env m = (Dest.failed, m))
    ∧ (fd ≤ env.now - m.pubTime → env.fileExists (fdelayPath m) = true →
      env.now - env.mtime (fdelayPath m) < fd →
      fdelayClassify fd env m = (Dest.failed, markNoRetry m))
    ∧ (markNoRetry m).isRetry = false := by
  refine ⟨?_, ?_, ?_, rfl⟩
  · intro h1
    simp [fdelayClassify, hm, h1]
  · intro h1 h2
    simp [fdelayClassify, hm, not_lt.mpr h1, h2]
  · intro h1 h2 h3
    simp [fdelayClassify, hm, not_lt.mpr h1, h2, h3]

def c2msg : Msg := ⟨0, "link", 0, "dir", "file", "path", true, []⟩

def c2env : FsEnv := ⟨100, fun _ => false, fun _ => 0⟩

/-- Claim C2 counterexample: a message whose publication time is old enough
(elapsed 100 ≥ delay 60) but whose referenced file does not exist is moved
to failed with its retry flag still True: the file-not-existing delay
condition does not set the retry flag to False as the claim states. -/
theorem fdelay_c2_counterexample :
    (fdelayOnMessages 60 c2env ⟨[c2msg], [], [], []⟩).failed = [c2msg]
    ∧ c2msg.isRetry = true := ⟨rfl, rfl⟩

def c2wmsg : Msg := ⟨1, "link", 90, "d", "f", "p", true, []⟩

def c2wenv : FsEnv := ⟨100, fun _ => true, fun _ => 0⟩

theorem fdelay_delay_conditions_witness :
    fdelayClassify 60 c2wenv c2wmsg = (Dest.failed, markNoRetry c2wmsg) := by
  exact (fdelay_delay_conditions 60 c2wenv c2wmsg (by decide)).1 (by decide)

/-- Claim C3 (amended): for a message whose integrity method is not
'remove', if its publication time is younger than the threshold it is moved
to failed with its retry flag cleared; if it is older, the message passes
the publication-time test and remains in incoming if and only if the
referenced file exists and its modification time is at least the threshold
old. -/
theorem fdelay_pubtime_rule (fd : Int) (env : FsEnv) (m : Msg)
    (hm : m.method ≠ "remove") :
    (env.now - m.pubTime < fd →
      fdelayClassify fd env m = (Dest.failed, markNoRetry m))
    ∧ (fd ≤ env.now - m.pubTime →
      ∀ ok rej fl : List Msg,
        ((fdelayOnMessages fd env ⟨[m], ok, rej, fl⟩).incoming = [m] ↔
          env.fileExists (fdelayPath m) = true ∧
            fd ≤ env.now - env.mtime (fdelayPath m))) := by
  constructor
  · intro h1
    simp [fdelayClassify, hm, h1]
  · intro h1 ok rej fl
    by_cases hfe : env.fileExists (fdelayPath m) = true
    · by_cases hmt : env.now - env.mtime (fdelayPath m) < fd
      · simp [fdelayOnMessages, fdelayRun, fdelayClassify, hm, not_lt.mpr h1, hfe,
          hmt, not_le.mpr hmt]
      · simp [fdelayOnMessages, fdelayRun, fdelayClassify, hm, not_lt.mpr h1, hfe,
          hmt, not_lt.mp hmt]
    · have hfe2 : env.fileExists (fdelayPath m) = false := by
        simpa using hfe
      simp [fdelayOnMessages, fdelayRun, fdelayClassify, hm, not_lt.mpr h1, hfe2]

def c3msg : Msg := ⟨2, "copy", 0, "dir", "file", "path", false, []⟩

def c3env : FsEnv := ⟨1000, fun _ => false, fun _ => 0⟩

/-- Claim C3 counterexample: a non-'remove' message whose publication time
is older than the threshold (elapsed 1000 ≥ 60) does not remain in
incoming: its referenced file does not exist, so it is moved to failed. -/
theorem fdelay_c3_counterexample :
    (fdelayOnMessages 60 c3env ⟨[c3msg], [], [], []⟩).incoming = []
    ∧ (fdelayOnMessages 60 c3env ⟨[c3msg], [], [], []⟩).failed = [c3msg] :=
  ⟨rfl, rfl⟩

def c3wmsg : Msg := ⟨3, "copy", 0, "d", "f", "p", false, []⟩

def c3wenv : FsEnv := ⟨1000, fun _ => true, fun _ => 900⟩

theorem fdelay_pubtime_rule_witness :
    (fdelayOnMessages 60 c3wenv ⟨[c3wmsg], [], [], []⟩).incoming = [c3wmsg] := by
  exact ((fdelay_pubtime_rule 60 c3wenv c3wmsg (by decide)).2 (by decide) [] [] []).mpr
    ⟨rfl, by decide⟩

theorem fdelayRun_rejected_mem (fd : Int) (env : FsEnv) (m : Msg)
    (hc : fdelayClassify fd env m = (Dest.rejected, m)) :
    ∀ ms : List Msg, m ∈ ms → m ∈ (fdelayRun fd env ms).2.1 := by
  intro ms
  induction ms with
  | nil => intro h; simp at h
  | cons a rest ih =>
    intro hmem
    simp only [fdelayRun]
    rcases List.mem_cons.mp hmem with h | h
    · subst h
      simp [hc]
    · have hr := ih h
      cases hclass : (fdelayClassify fd env a).1 <;> simp [hclass, hr]

/-- Claim C4: a message whose integrity method is 'remove' is classified
as rejected immediately and unmutated, for every delay value and every
clock/filesystem environment (so no publication-time or file-age delay
test influences it), and it ends in the rejected partition of the
worklist. -/
theorem fdelay_remove_rejected (fd : Int) (env : FsEnv) (m : Msg)
    (hm : m.method = "remove") :
    fdelayClassify fd env m = (Dest.rejected, m)
    ∧ ∀ w : Worklist, m ∈ w.incoming → m ∈ (fdelayOnMessages fd env w).rejected := by
  have hc : fdelayClassify fd env m = (Dest.rejected, m) := by
    simp [fdelayClassify, hm]
  refine ⟨hc, ?_⟩
  intro w hmem
  exact List.mem_append.mpr (Or.inr (fdelayRun_rejected_mem fd env m hc w.incoming hmem))

def c4msg : Msg := ⟨4, "remove", 0, "d", "f", "p", false, []⟩

def c4env : FsEnv := ⟨0, fun _ => false, fun _ => 0⟩

theorem fdelay_remove_rejected_witness :
    c4msg ∈ (fdelayOnMessages 30 c4env ⟨[c4msg], [], [], []⟩).rejected := by
  exact (fdelay_remove_rejected 30 c4env c4msg rfl).2 ⟨[c4msg], [], [], []⟩ (by simp)

/-- Attribute values stored on an options object. -/
inductive AVal where
  | int : Int → AVal
  | str : String → AVal
  | bool : Bool → AVal
deriving DecidableEq, Repr

/-- An options object as load_library sees it: an optional `settings`
attribute (a mapping from fully-qualified stage name to a mapping of
option names to values, `None` when `hasattr(options, 'settings')` is
false) plus the plain attributes of the object. -/
structure OptsObj where
  settings : Option (List (String × List (String × AVal)))
  attrs : List (String × AVal)
deriving DecidableEq, Repr

/-- Python getattr on the modelled options object. -/
def OptsObj.getAttr (o : OptsObj) (a : String) : Option AVal := o.attrs.lookup a

/-- Python setattr on the modelled options object. -/
def OptsObj.setAttr (o : OptsObj) (a : String) (v : AVal) : OptsObj :=
  { o with attrs := (a, v) :: o.attrs }

/-- The Python object heap: options objects indexed by reference. -/
abbrev Heap := List OptsObj

def heapGet (h : Heap) (r : Nat) : OptsObj := h.getD r ⟨none, []⟩

/-- Mutating one attribute of the object behind reference `r`. -/
def heapSetAttr (h : Heap) (r : Nat) (a : String) (v : AVal) : Heap :=
  h.set r ((heapGet h r).setAttr a v)

/-- The overlay loop of load_library:
`for s in options.settings[factory_path]: setattr(opt, s, ...)`. -/
def applySettings (o : OptsObj) (kvs : List (String × AVal)) : OptsObj :=
  kvs.foldl (fun acc kv => acc.setAttr kv.1 kv.2) o

/-- load_library's configuration resolution, on the heap model: when the
options object has a `settings` attribute, a deep copy is allocated at a
fresh reference and the overlay keyed by the exact factory path (when
present) is applied to the copy; otherwise the stage receives the caller's
own reference unchanged.  The returned pair is the new heap and the
reference handed to the instantiated stage. -/
def load_library (factory_path : String) (h : Heap) (r : Nat) : Heap × Nat :=
  let options := heapGet h r
  match options.settings with
  | some st =>
    let opt := match st.lookup factory_path with
      | some kvs => applySettings options kvs
      | none => options
    (h ++ [opt], h.length)
  | none => (h, r)

theorem lookup_append {α β : Type} [BEq α] (l₁ l₂ : List (α × β)) (k : α) :
    (l₁ ++ l₂).lookup k
      = match l₁.lookup k with
        | some v => some v
        | none => l₂.lookup k := by
  induction l₁ with
  | nil => simp [List.lookup]
  | cons p rest ih =>
    obtain ⟨a, v⟩ := p
    simp only [List.cons_append, List.lookup]
    cases k == a <;> simp [ih]

theorem getAttr_applySettings (o : OptsObj) (kvs : List (String × AVal)) (k : String) :
    (applySettings o kvs).getAttr k
      = match kvs.reverse.lookup k with
        | some v => some v
        | none => o.getAttr k := by
  induction kvs generalizing o with
  | nil => simp [applySettings]
  | cons p rest ih =>
    obtain ⟨a, v⟩ := p
    simp only [applySettings, List.foldl] at *
    rw [ih, List.reverse_cons, lookup_append]
    cases rest.reverse.lookup k with
    | some w => rfl
    | none =>
      cases h : (k == a) <;>
        simp [List.lookup, h, OptsObj.getAttr, OptsObj.setAttr]

theorem heapGet_append_lt (h l : Heap) (r : Nat) (hr : r < h.length) :
    heapGet (h ++ l) r = heapGet h r :=
  List.getD_append _ _ _ _ hr

theorem heapGet_append_self (h : Heap) (o : OptsObj) :
    heapGet (h ++ [o]) h.length = o := by
  unfold heapGet
  rw [List.getD_append_right _ _ _ _ (le_refl _)]
  simp

theorem heapGet_set_ne (h : Heap) (i j : Nat) (o : OptsObj) (hij : i ≠ j) :
    heapGet (h.set i o) j = heapGet h j := by
  unfold heapGet
  simp [List.getD, List.getElem?_set_ne hij]

def c5heap : Heap := [⟨none, [("x", AVal.int 0)]⟩]

/-- Claim C5 counterexample: when the options object has no `settings`
attribute, load_library hands the stage the caller's own options object
(no copy is made), so mutating an attribute of the stage's options changes
the caller's flow-wide options object. -/
theorem load_library_alias_counterexample :
    heapGet (heapSetAttr (load_library "pkg.Stage" c5heap 0).1
        (load_library "pkg.Stage" c5heap 0).2 "x" (AVal.int 1)) 0
      ≠ heapGet (load_library "pkg.Stage" c5heap 0).1 0 := by decide

/-- Claim C5 (amended): when the options object carries a `settings`
attribute, load_library allocates the stage its own deep copy at a fresh
reference, so mutating any attribute of the stage's options leaves the
caller's options object unchanged; when there is no `settings` attribute,
the stage shares the caller's options object (heap and reference are
returned unchanged), so mutations are visible to the caller. -/
theorem load_library_copy_semantics (fp : String) (h : Heap) (r : Nat)
    (a : String) (v : AVal) (hr : r < h.length) :
    ((heapGet h r).settings.isSome →
      (load_library fp h r).2 ≠ r
      ∧ heapGet (heapSetAttr (load_library fp h r).1 (load_library fp h r).2 a v) r
          = heapGet (load_library fp h r).1 r
      ∧ heapGet (load_library fp h r).1 r = heapGet h r)
    ∧ ((heapGet h r).settings = none → load_library fp h r = (h, r)) := by
  constructor
  · intro hs
    obtain ⟨st, hst⟩ := Option.isSome_iff_exists.mp hs
    simp only [load_library, hst]
    refine ⟨(ne_of_lt hr).symm, ?_, heapGet_append_lt h _ r hr⟩
    unfold heapSetAttr
    exact heapGet_set_ne _ _ _ _ (ne_of_lt hr).symm
  · intro hn
    simp [load_library, hn]

def c5wheap : Heap := [⟨some [], [("x", AVal.int 0)]⟩]

theorem load_library_copy_semantics_witness :
    heapGet (heapSetAttr (load_library "pkg.Stage" c5wheap 0).1
        (load_library "pkg.Stage" c5wheap 0).2 "x" (AVal.int 1)) 0
      = heapGet (load_library "pkg.Stage" c5wheap 0).1 0 := by
  exact ((load_library_copy_semantics "pkg.Stage" c5wheap 0 "x" (AVal.int 1)
    (by decide)).1 (by decide)).2.1

/-- Claim C9: when the options carry a settings overlay keyed by the exact
factory path, every option in that overlay appears on the stage's resolved
configuration as a direct attribute overriding the deep-copied flow-wide
value (for a key the overlay sets, possibly several times, its last
binding is what getattr returns; keys outside the overlay keep the
caller's value), and when no overlay is keyed by the factory path the
resolved configuration is exactly the deep copy of the caller's options,
so settings keyed by any other qualified name are never applied. -/
theorem load_library_overlay (fp : String) (h : Heap) (r : Nat)
    (st : List (String × List (String × AVal))) (k : String)
    (hr : r < h.length) (hs : (heapGet h r).settings = some st) :
    (∀ kvs, st.lookup fp = some kvs →
      (heapGet (load_library fp h r).1 (load_library fp h r).2).getAttr k
        = (match kvs.reverse.lookup k with
           | some v => some v
           | none => (heapGet h r).getAttr k))
    ∧ (st.lookup fp = none →
      heapGet (load_library fp h r).1 (load_library fp h r).2 = heapGet h r) := by
  constructor
  · intro kvs hkvs
    simp only [load_library, hs, hkvs]
    rw [heapGet_append_self]
    exact getAttr_applySettings _ kvs k
  · intro hnone
    simp only [load_library, hs, hnone]
    exact heapGet_append_self h _

def c9heap : Heap :=
  [⟨some [("pkg.stage.Name", [("opt", AVal.int 5)]), ("other.Stage", [("opt", AVal.int 9)])],
    [("opt", AVal.int 1)]⟩]

theorem load_library_overlay_witness :
    (heapGet (load_library "pkg.stage.Name" c9heap 0).1
        (load_library "pkg.stage.Name" c9heap 0).2).getAttr "opt"
      = some (AVal.int 5) := by
  have h := (load_library_overlay "pkg.stage.Name" c9heap 0
      [("pkg.stage.Name", [("opt", AVal.int 5)]), ("other.Stage", [("opt", AVal.int 9)])]
      "opt" (by decide) rfl).1 [("opt", AVal.int 5)] rfl
  exact h.trans (by decide)

/-- Messages as seen by the acceleration plugin: the fields ACCEL_WGET
reads.  `blocks` is `msg['blocks']['size']` when the message carries a
blocks descriptor, `none` when `'blocks' in msg` is false. -/
structure AMsg where
  method : String
  baseUrl : String
  relPath : String
  new_dir : String
  new_file : String
  blocks : Option Nat
  size : Nat
deriving DecidableEq, Repr

/-- The worklist partitions as handed to ACCEL_WGET.on_messages. -/
structure AWorklist where
  incoming : List AMsg
  ok : List AMsg
  rejected : List AMsg
  failed : List AMsg
deriving DecidableEq, Repr

/-- ACCEL_WGET.get_size: blocks size when a blocks descriptor is present,
otherwise the flat size field. -/
def get_size (m : AMsg) : Nat :=
  match m.blocks with
  | some b => b
  | none => m.size

/-- The ACCEL_WGET.on_messages loop body: messages with integrity method
link or remove are skipped, and for every other message a debug line with
its size, the threshold, its base URL and its new file name is emitted.
No message and no partition is modified. -/
def accelLog (threshold : Nat) : List AMsg → List (Nat × Nat × String × String)
  | [] => []
  | m :: rest =>
    if m.method = "link" ∨ m.method = "remove" then accelLog threshold rest
    else (get_size m, threshold, m.baseUrl, m.new_file) :: accelLog threshold rest

/-- ACCEL_WGET.on_messages: returns the (unchanged) worklist together with
the log lines the loop produced. -/
def accelOnMessages (threshold : Nat) (w : AWorklist) :
    AWorklist × List (Nat × Nat × String × String) :=
  (w, accelLog threshold w.incoming)

/-- Maximal-munch parse of `[0-9]+`: the digit run itself and the rest,
or none when no digit starts the input. -/
def parseDigits (cs : List Char) : Option (List Char × List Char) :=
  let ds := cs.takeWhile Char.isDigit
  if ds.isEmpty then none else some (ds, cs.dropWhile Char.isDigit)

/-- Whether the pattern `\[[0-9]+/[0-9]+\]` matches at the head of the
input, returning the first group's text (the captured digit run). -/
def bracketAt : List Char → Option (List Char)
  | '[' :: rest =>
    match parseDigits rest with
    | none => none
    | some (ds, rest1) =>
      match rest1 with
      | '/' :: rest2 =>
        match parseDigits rest2 with
        | none => none
        | some (_, rest3) =>
          match rest3 with
          | ']' :: _ => some ds
          | _ => none
      | _ => none
  | _ => none

/-- The bracketed group at the last position of the input where the
bracket pattern matches (a greedy leading `.*` backtracks from the end),
or none when the pattern matches nowhere. -/
def scanLast : List Char → Option (List Char)
  | [] => none
  | c :: rest =>
    match scanLast rest with
    | some ds => some ds
    | none => bracketAt (c :: rest)

/-- The group captured by Python's
`re.match` of the pattern `.*\[([0-9]+)/[0-9]+\].*` on stderr: re.match anchors at
the start and `.` does not match a newline, so the leading greedy `.*`
cannot cross stderr's first line break; none of the bracket pattern's own
characters can be a newline either, and the trailing `.*` imposes nothing
(re.match has no end anchor), so the pattern matches exactly when the
bracket occurs within the first line, and greediness captures the last
such occurrence. -/
def reMatchBracket (s : String) : Option (List Char) :=
  scanLast (s.toList.takeWhile (fun c => !(c == '\n')))

/-- The reports ACCEL_WGET.check_results can publish. -/
inductive Report where
  | failure499
  | success201
deriving DecidableEq, Repr

/-- The report check_results publishes: on non-zero exit a failure (499)
report when reportback is configured and truthy, on zero exit a success
(201) report under the same reportback condition, otherwise nothing.
`reportback` is none when `hasattr(self.o, 'reportback')` is false and
`some b` when the attribute is present with truthiness `b`. -/
def reportOf (reportback : Option Bool) (returncode : Int) : Option Report :=
  if returncode ≠ 0 then
    if reportback = some true then some Report.failure499 else none
  else
    if reportback = some true then some Report.success201 else none

/-- The outside world of one external transfer command: its exit status,
its error output, and the stat size of the destination file (none models
FileNotFoundError). -/
structure TransferEnv where
  returncode : Int
  stderr : String
  statSize : Option Nat
deriving DecidableEq, Repr

/-- A value check_results can return: `m.groups()[0]` is a Python str
(the captured digit text), while the stat fallback `fct(filepath).st_size`
and the FileNotFoundError fallback 0 are Python ints. -/
inductive PyRet where
  | intVal (n : Nat)
  | strVal (s : String)
deriving DecidableEq, Repr

/-- ACCEL_WGET.check_results: the published report, and the returned size
value: the digit group captured from stderr's first line when the
bracketed size pattern matches there (kept as a string, exactly as the
source keeps `m.groups()[0]`), otherwise the destination file's stat size
as a number, otherwise the number 0. -/
def check_results (reportback : Option Bool) (env : TransferEnv) :
    Option Report × PyRet :=
  (reportOf reportback env.returncode,
   match reMatchBracket env.stderr with
   | some ds => PyRet.strVal (String.mk ds)
   | none =>
     match env.statSize with
     | some s => PyRet.intVal s
     | none => PyRet.intVal 0)

/-- Result of one do_get call: either the built-in provider's transfer
(whose byte count `super().get(...)` returns) or the accelerated external
command's check_results outcome. -/
inductive GetOutcome where
  | builtin (bytes : Nat)
  | accelerated (rep : Option Report) (ret : PyRet)
deriving DecidableEq, Repr

/-- ACCEL_WGET.do_get: below the threshold the built-in provider transfer
is used; at or above it the external command runs and check_results gives
the outcome.  `builtinBytes` is the byte count the built-in provider
returns, `env` the external command's observable behaviour. -/
def do_get (threshold : Nat) (reportback : Option Bool) (builtinBytes : Nat)
    (env : TransferEnv) (msg : AMsg) : GetOutcome :=
  if get_size msg < threshold then GetOutcome.builtin builtinBytes
  else GetOutcome.accelerated (check_results reportback env).1
    (check_results reportback env).2

def c6msg : AMsg := ⟨"d", "http://host/data", "data", "", "data", none, 2000000⟩

/-- Claim C6 (code finding): ACCEL_WGET.on_messages never rewrites any
message.  At the failing input — threshold 1048576 and a message of
declared size 2000000, well above the threshold — the worklist after
on_messages is unchanged and the message's URL still carries the original
http scheme, contradicting the module's own docstring, which says the
on_message routine replaces the URL scheme with 'download' for files
larger than the threshold. -/
theorem accel_on_messages_keeps_scheme :
    (accelOnMessages 1048576 ⟨[c6msg], [], [], []⟩).1 = ⟨[c6msg], [], [], []⟩
    ∧ c6msg.baseUrl = "http://host/data"
    ∧ 1048576 ≤ get_size c6msg :=
  ⟨rfl, rfl, by decide⟩

/-- Claim C7: do_get dispatches to the built-in provider transfer when the
declared size is below the threshold and to the accelerated external
command when it is at or above it, and the declared size is blocks.size
when a blocks descriptor is present, else the flat size field. -/
theorem accel_do_get_dispatch (th : Nat) (rb : Option Bool) (bg : Nat)
    (env : TransferEnv) (m : AMsg) :
    (get_size m < th → do_get th rb bg env m = GetOutcome.builtin bg)
    ∧ (th ≤ get_size m →
      do_get th rb bg env m
        = GetOutcome.accelerated (check_results rb env).1 (check_results rb env).2)
    ∧ (∀ b, m.blocks = some b → get_size m = b)
    ∧ (m.blocks = none → get_size m = m.size) := by
  refine ⟨?_, ?_, ?_, ?_⟩
  · intro hlt
    simp [do_get, hlt]
  · intro hge
    simp [do_get, not_lt.mpr hge]
  · intro b hb
    simp [get_size, hb]
  · intro hb
    simp [get_size, hb]

def c7msg : AMsg := ⟨"d", "http://h/f", "f", "", "f", some 500000, 99⟩

theorem accel_do_get_dispatch_witness :
    do_get 1048576 none 7 ⟨0, "", some 3⟩ c7msg = GetOutcome.builtin 7 := by
  exact (accel_do_get_dispatch 1048576 none 7 ⟨0, "", some 3⟩ c7msg).1 (by decide)

/-- Python values a delay option can hold in FDelay.__init__: ints,
floats (embedded as rationals), strings, and lists of such values. -/
inductive FVal where
  | int : Int → FVal
  | float : Rat → FVal
  | str : String → FVal
  | list : List FVal → FVal

/-- Python float() on a string, for the literals exercised here: a
non-negative integer literal parses to its value, anything else raises
ValueError (none). -/
def pyFloatStr (s : String) : Option Rat :=
  let cs := s.toList
  if cs ≠ [] ∧ cs.all Char.isDigit then
    some ((cs.foldl (fun a c => 10 * a + (c.toNat - 48)) 0 : Nat) : Rat)
  else none

/-- Python float(x) on a delay-option value: numbers convert to their
value, strings parse, lists raise TypeError (none). -/
def pyFloat : FVal → Option Rat
  | FVal.int n => some ((n : Rat))
  | FVal.float q => some q
  | FVal.str s => pyFloatStr s
  | FVal.list _ => none

/-- Python x[0] on a delay-option value: a list yields its first element
(IndexError on empty: none), a string yields its first character as a
one-character string, numbers raise TypeError (none). -/
def pySubZero : FVal → Option FVal
  | FVal.list l => l.head?
  | FVal.str s => s.toList.head?.map (fun c => FVal.str (String.mk [c]))
  | _ => none

/-- FDelay.__init__'s resolution of the effective delay, following the
source statement by statement: msg_fdelay (when present) overwrites
fdelay; when fdelay is still absent it defaults to 60; when it is a list
it is replaced by its first element; and when its type is still neither
int nor float it is replaced by float(fdelay[0]).  The arguments are the
fdelay and msg_fdelay attributes of the options (none = attribute
absent); the result is the effective delay value, none where the Python
raises. -/
def resolveFdelay (msg_fdelay fdelay : Option FVal) : Option FVal :=
  let fd0 := match msg_fdelay with
    | some v => some v
    | none => fdelay
  let fd1 : FVal := match fd0 with
    | some v => v
    | none => FVal.int 60
  let fd2 : Option FVal := match fd1 with
    | FVal.list l => l.head?
    | v => some v
  match fd2 with
  | none => none
  | some (FVal.int n) => some (FVal.int n)
  | some (FVal.float q) => some (FVal.float q)
  | some v => (pySubZero v).bind (fun w => (pyFloat w).map FVal.float)

/-- Claim C10 counterexample: for the configured delay value ['30'] (a
list whose first element is the string '30'), the effective delay is not
that first element: after the list is replaced by its first element, the
type check `type(fdelay) not in [int, float]` still fires and replaces it
with float(fdelay[0]) = float('3') = 3.0, so the resolution yields the
float 3, not the string '30'. -/
theorem fdelay_init_list_counterexample :
    resolveFdelay none (some (FVal.list [FVal.str "30"])) = some (FVal.float 3)
    ∧ resolveFdelay none (some (FVal.list [FVal.str "30"])) ≠ some (FVal.str "30") := by
  have h1 : resolveFdelay none (some (FVal.list [FVal.str "30"]))
      = some (FVal.float 3) := rfl
  refine ⟨h1, ?_⟩
  intro h
  rw [h1] at h
  exact FVal.noConfusion (Option.some.inj h)

/-- Claim C10 (amended): with neither fdelay nor msg_fdelay configured the
effective delay is the int 60; a configured msg_fdelay makes the fdelay
attribute irrelevant (it overrides it); a list-valued delay resolves to
its first element when that element is an int or a float (which the two
remaining type checks pass through unchanged); and a list whose first
element is a non-empty string resolves to float of the string's first
character — e.g. ['30'] yields 3.0 — not to the first element itself. -/
theorem fdelay_init_resolution :
    resolveFdelay none none = some (FVal.int 60)
    ∧ (∀ (v : FVal) (fd fd2 : Option FVal),
      resolveFdelay (some v) fd = resolveFdelay (some v) fd2)
    ∧ (∀ (x : FVal) (rest : List FVal) (fd : Option FVal),
      ((∃ n, x = FVal.int n) ∨ (∃ q, x = FVal.float q)) →
      resolveFdelay none (some (FVal.list (x :: rest))) = some x
      ∧ resolveFdelay (some (FVal.list (x :: rest))) fd = some x)
    ∧ (∀ (c : Char) (cs : List Char) (rest : List FVal) (fd : Option FVal),
      resolveFdelay none (some (FVal.list (FVal.str (String.mk (c :: cs)) :: rest)))
        = (pyFloatStr (String.mk [c])).map FVal.float
      ∧ resolveFdelay (some (FVal.list (FVal.str (String.mk (c :: cs)) :: rest))) fd
        = (pyFloatStr (String.mk [c])).map FVal.float) := by
  refine ⟨rfl, ?_, ?_, ?_⟩
  · intro v fd fd2
    rfl
  · intro x rest fd hx
    rcases hx with ⟨n, rfl⟩ | ⟨q, rfl⟩ <;> exact ⟨rfl, rfl⟩
  · intro c cs rest fd
    exact ⟨rfl, rfl⟩

theorem fdelay_init_resolution_witness :
    resolveFdelay none (some (FVal.list [FVal.int 30])) = some (FVal.int 30) := by
  exact (fdelay_init_resolution.2.2.1 (FVal.int 30) [] none (Or.inl ⟨30, rfl⟩)).1
